import Mathlib

/-!
Verification of the production-planning core of `app.py`.

The decision logic of the repository (historical-row cleaning, the
category-to-brand classifier, target aggregation, SKU grouping, the
proportional SKU distribution engine, and the growth/risk metrics) is
shallowly embedded below.  Numeric columns are modelled with `ℚ`
(the Python code computes with floats; all claims here are either exact
rational identities or order comparisons on exactly representable
values), strings with `String`/`List Char`, Python dicts with
insertion-ordered association lists, and `pd.NaN`/missing cells with
`Option`.
-/

namespace ProdPlan

/-! ### Python string primitives

`str.lower`, `str.strip`, `str.upper`, substring containment (`in`) and
single-character `str.replace`, as used by `app.py`, modelled on
`List Char`.  Only ASCII data reaches these calls in the program, where
`Char.toLower`/`Char.toUpper` agree with Python. -/

/-- Whitespace characters removed by Python `str.strip()` (ASCII part). -/
def isWsChar (ch : Char) : Bool :=
  (ch == ' ') || (ch == '\t') || (ch == '\n') || (ch == '\r') || (ch == '\x0b') || (ch == '\x0c')

/-- `str.lower` (character-wise). -/
def lowerList (l : List Char) : List Char := l.map Char.toLower

/-- Drop leading whitespace. -/
def ltrimList (l : List Char) : List Char := l.dropWhile isWsChar

/-- Drop trailing whitespace. -/
def rtrimList (l : List Char) : List Char := (l.reverse.dropWhile isWsChar).reverse

/-- Python `str.strip()`. -/
def pyStrip (l : List Char) : List Char := rtrimList (ltrimList l)

/-- `str.strip()` on `String`. -/
def stripStr (s : String) : String := ⟨pyStrip s.data⟩

/-- Does `p` occur as a leading run of `l`? (helper for containment). -/
def leadsWith : List Char → List Char → Bool
  | [], _ => true
  | _ :: _, [] => false
  | a :: ps, c :: cs => (a == c) && leadsWith ps cs

/-- Python substring test `p in l`. -/
def occursIn (p : List Char) : List Char → Bool
  | [] => p.isEmpty
  | c :: cs => leadsWith p (c :: cs) || occursIn p cs

/-- `category.replace(' ', '-')` — single-character replace is a map. -/
def dashSpaces (l : List Char) : List Char :=
  l.map (fun ch => if ch == ' ' then '-' else ch)

/-- `str.upper` (character-wise). -/
def upperList (l : List Char) : List Char := l.map Char.toUpper

/-! ### Data model -/

/-- One cleaned historical row (`BRANDPRODUCT`, `Item Code`, `Item Name`, `TON`). -/
structure HistRecord where
  brand : String
  skuCode : String
  skuName : String
  tonnage : ℚ
  deriving DecidableEq

/-- One entry of the parsed target table: `category → {mayTarget, w1Target}`. -/
structure CatEntry where
  category : String
  mayTarget : ℚ
  w1Target : ℚ
  deriving DecidableEq

/-- Per-brand aggregate built by `map_categories_to_brands`. -/
structure BrandTarget where
  mayTarget : ℚ
  w1Target : ℚ
  categories : List String
  historicalTonnage : ℚ
  deriving DecidableEq

/-- One grouped (brand, SKU code, SKU name) row with summed tonnage
(`groupby(['BRANDPRODUCT','Item Code','Item Name'])['TON'].sum()`). -/
structure SkuGroup where
  brand : String
  skuCode : String
  skuName : String
  tonnage : ℚ
  deriving DecidableEq

/-- One value of a per-brand distribution dict in `predict_sku_distribution`. -/
structure SkuPred where
  tonnage : ℚ
  percentage : ℚ
  itemName : String
  historicalTonnage : ℚ
  deriving DecidableEq

/-- `predictions[brand]` as built by `predict_sku_distribution`. -/
structure Prediction where
  mayTarget : ℚ
  w1Target : ℚ
  historicalTonnage : ℚ
  categories : List String
  mayDistribution : List (String × SkuPred)
  w1Distribution : List (String × SkuPred)
  skuCount : ℕ
  deriving DecidableEq

/-! ### Association lists (Python dicts, insertion-ordered) -/

/-- Dict lookup. -/
def assocLookup {α : Type} : List (String × α) → String → Option α
  | [], _ => none
  | (k', v) :: rest, k => if k' = k then some v else assocLookup rest k

/-- Dict assignment `d[k] = v`: updates in place, else appends. -/
def dictInsert {α : Type} : List (String × α) → String → α → List (String × α)
  | [], k, v => [(k, v)]
  | (k', v') :: rest, k, v =>
      if k' = k then (k, v) :: rest else (k', v') :: dictInsert rest k v

/-- The keys of an association list. -/
def assocKeys {α : Type} (m : List (String × α)) : List String := m.map Prod.fst

/-! ### Historical ingestion: row cleaning (`process_historical_file`, lines 77–112)

A raw spreadsheet row after the header/column checks succeeded.
`ton = none` models a missing cell or one `pd.to_numeric(..., errors='coerce')`
could not parse (after removing thousands separators); `brand`/`itemCode =
none` model missing (`NaN`) cells dropped by `dropna`. -/
structure RawRow where
  brand : Option String
  itemCode : Option String
  itemName : String
  ton : Option ℚ
  deriving DecidableEq

/-- The per-row filter of `process_historical_file`: drop missing or
non-positive tonnage, drop missing brand/SKU code, strip whitespace, and
drop empty or literal `"nan"` brand/SKU code. -/
def rowToRecord (row : RawRow) : Option HistRecord :=
  match row.ton, row.brand, row.itemCode with
  | some t, some b, some c =>
      if 0 < t then
        if stripStr b ≠ "" ∧ stripStr b ≠ "nan" ∧ stripStr c ≠ "" ∧ stripStr c ≠ "nan" then
          some ⟨stripStr b, stripStr c, stripStr row.itemName, t⟩
        else none
      else none
  | _, _, _ => none

/-- The cleaned record table. -/
def cleanRows (rows : List RawRow) : List HistRecord := rows.filterMap rowToRecord

/-- The cleaning stage of `process_historical_file` (after header discovery and
the missing-column check have succeeded): the function returns the cleaned
DataFrame unconditionally — `none` (Python `None`) is produced only by the
earlier header/column failure branches, which this stage never reaches. -/
def processHistoricalRows (rows : List RawRow) : Option (List HistRecord) :=
  some (cleanRows rows)

/-! ### Category-to-brand classifier (`map_categories_to_brands`, lines 264–294) -/

def mfgTok : List Char := "mfg".data
def scgTok : List Char := "scg".data
def mizuTok : List Char := "mizu".data
def iconTok : List Char := "icon".data
def miconTok : List Char := "micon".data
def pipeTok : List Char := "pipe".data
def conduitTok : List Char := "conduit".data
def fittingTok : List Char := "fitting".data
def valveTok : List Char := "valve".data

/-- `cat_lower = str(category).lower().strip()`. -/
def catLower (category : String) : List Char := pyStrip (lowerList category.data)

/-- `category.replace(' ', '-').upper()` — the fallback brand code. -/
def fallbackCode (category : String) : String := ⟨upperList (dashSpaces category.data)⟩

/-- The classifier: `none` models the `continue` (excluded "Trading" category);
otherwise the canonical brand code, following the rule chain of the source. -/
def classifyCategory (category : String) : Option String :=
  if occursIn mfgTok (catLower category) then
    if occursIn scgTok (catLower category) then
      if occursIn pipeTok (catLower category) || occursIn conduitTok (catLower category) then
        some "SCG-PI"
      else if occursIn fittingTok (catLower category) then some "SCG-FT"
      else if occursIn valveTok (catLower category) then some "SCG-BV"
      else some "SCG-PI"
    else if occursIn mizuTok (catLower category) then
      if occursIn fittingTok (catLower category) then some "MIZU-FT" else some "MIZU-PI"
    else if occursIn iconTok (catLower category) || occursIn miconTok (catLower category) then
      some "ICON-PI"
    else if occursIn pipeTok (catLower category) then some "SCG-PI"
    else if occursIn fittingTok (catLower category) then some "SCG-FT"
    else if occursIn valveTok (catLower category) then some "SCG-BV"
    else some (fallbackCode category)
  else none

/-! ### Target aggregation (`map_categories_to_brands`, lines 296–311) -/

/-- `historical_df.groupby('BRANDPRODUCT')['TON'].sum()` followed by
`.get(brand, 0)`. -/
def brandTotal (recs : List HistRecord) (b : String) : ℚ :=
  ((recs.filter (fun r => r.brand == b)).map HistRecord.tonnage).sum

/-- The accumulator entry created on a brand's first encounter. -/
def initBrand (recs : List HistRecord) (b : String) : BrandTarget :=
  { mayTarget := 0, w1Target := 0, categories := [], historicalTonnage := brandTotal recs b }

/-- One iteration of the aggregation loop over `category_targets.items()`. -/
def aggStep (recs : List HistRecord) (acc : List (String × BrandTarget)) (e : CatEntry) :
    List (String × BrandTarget) :=
  match classifyCategory e.category with
  | none => acc
  | some b =>
      let cur := (assocLookup acc b).getD (initBrand recs b)
      dictInsert acc b
        { mayTarget := cur.mayTarget + e.mayTarget
          w1Target := cur.w1Target + e.w1Target
          categories := cur.categories ++ [e.category]
          historicalTonnage := cur.historicalTonnage }

/-- `map_categories_to_brands` (its returned `brand_targets_agg`). -/
def mapCategoriesToBrands (cats : List CatEntry) (recs : List HistRecord) :
    List (String × BrandTarget) :=
  cats.foldl (aggStep recs) []

/-! ### Historical aggregator and SKU distribution engine
(`predict_sku_distribution`, lines 341–391) -/

/-- Merge one record into the grouped table (same (brand, code, name) key ⇒
tonnages are summed).  Group rows are kept in first-occurrence order; pandas
returns them sorted by key, but no claim below depends on the relative order
of rows with distinct keys. -/
def addRecord (gs : List SkuGroup) (r : HistRecord) : List SkuGroup :=
  match gs with
  | [] => [⟨r.brand, r.skuCode, r.skuName, r.tonnage⟩]
  | g :: rest =>
      if g.brand = r.brand ∧ g.skuCode = r.skuCode ∧ g.skuName = r.skuName then
        { g with tonnage := g.tonnage + r.tonnage } :: rest
      else g :: addRecord rest r

/-- `brand_sku_tonnage = historical_df.groupby([...])['TON'].sum()`. -/
def groupRecords (recs : List HistRecord) : List SkuGroup := recs.foldl addRecord []

/-- `current_brand_skus`: the grouped rows of one brand. -/
def brandSkus (recs : List HistRecord) (b : String) : List SkuGroup :=
  (groupRecords recs).filter (fun g => g.brand == b)

/-- `TotalBrandTon` for one brand (the denominator of `Percentage`). -/
def brandSkuTotal (recs : List HistRecord) (b : String) : ℚ :=
  ((brandSkus recs b).map SkuGroup.tonnage).sum

/-- One iteration of the per-SKU loop: insert into both period dicts when the
share is at least `0.001`, else skip. -/
def distStep (mayT w1T total : ℚ)
    (acc : List (String × SkuPred) × List (String × SkuPred)) (g : SkuGroup) :
    List (String × SkuPred) × List (String × SkuPred) :=
  if 1 / 1000 ≤ g.tonnage / total then
    (dictInsert acc.1 g.skuCode ⟨mayT * (g.tonnage / total), g.tonnage / total, g.skuName, g.tonnage⟩,
     dictInsert acc.2 g.skuCode ⟨w1T * (g.tonnage / total), g.tonnage / total, g.skuName, g.tonnage⟩)
  else acc

/-- Both period distributions of a brand, built left to right over its rows. -/
def brandDistPair (mayT w1T total : ℚ) (bskus : List SkuGroup) :
    List (String × SkuPred) × List (String × SkuPred) :=
  bskus.foldl (distStep mayT w1T total) ([], [])

/-- `predictions[brand]` for a brand with at least one grouped row. -/
def mkPrediction (bt : BrandTarget) (bskus : List SkuGroup) : Prediction :=
  { mayTarget := bt.mayTarget
    w1Target := bt.w1Target
    historicalTonnage := bt.historicalTonnage
    categories := bt.categories
    mayDistribution :=
      (brandDistPair bt.mayTarget bt.w1Target ((bskus.map SkuGroup.tonnage).sum) bskus).1
    w1Distribution :=
      (brandDistPair bt.mayTarget bt.w1Target ((bskus.map SkuGroup.tonnage).sum) bskus).2
    skuCount := bskus.length }

/-- The per-brand body of the prediction loop: `none` models the
`continue` branch (`len(current_brand_skus) == 0`, warning only). -/
def predictBrand (recs : List HistRecord) (b : String) (bt : BrandTarget) : Option Prediction :=
  if (brandSkus recs b).isEmpty then none
  else some (mkPrediction bt (brandSkus recs b))

/-- One iteration of the loop over `brand_targets_agg.items()`: skip the brand
or assign `predictions[brand]` (brand keys of `brand_targets_agg` are
distinct, so dict assignment is an append). -/
def predStep (recs : List HistRecord) (acc : List (String × Prediction))
    (pr : String × BrandTarget) : List (String × Prediction) :=
  match predictBrand recs pr.1 pr.2 with
  | none => acc
  | some p => acc ++ [(pr.1, p)]

/-- `predict_sku_distribution` (its returned `predictions` dict). -/
def predictSkuDistribution (bts : List (String × BrandTarget)) (recs : List HistRecord) :
    List (String × Prediction) :=
  if recs.isEmpty then []
  else bts.foldl (predStep recs) []

/-! ### Derived metrics (`display_insights_section`, lines 460–472) -/

/-- `brand_growth = may_target / historical if historical > 0 else 0`. -/
def brandGrowth (bt : BrandTarget) : ℚ :=
  if 0 < bt.historicalTonnage then bt.mayTarget / bt.historicalTonnage else 0

inductive RiskLevel where
  | High
  | Medium
  | Low
  deriving DecidableEq

/-- The risk classification of the brand analysis table. -/
def riskOf (g : ℚ) : RiskLevel :=
  if 3 < g then RiskLevel.High
  else if 3 / 2 < g then RiskLevel.Medium
  else RiskLevel.Low

/-! ### Derived definitions used in statements -/

/-- Does a category entry get classified to brand `b`? -/
def hitsBrand (b : String) (e : CatEntry) : Bool := classifyCategory e.category == some b

/-- Accumulating a run of category entries onto a brand accumulator. -/
def accumBT (base : BrandTarget) (l : List CatEntry) : BrandTarget :=
  { mayTarget := base.mayTarget + (l.map CatEntry.mayTarget).sum
    w1Target := base.w1Target + (l.map CatEntry.w1Target).sum
    categories := base.categories ++ l.map CatEntry.category
    historicalTonnage := base.historicalTonnage }

/-- Sum of `mayTarget` over the categories classified to brand `b`. -/
def maySumFor (cats : List CatEntry) (b : String) : ℚ :=
  ((cats.filter (hitsBrand b)).map CatEntry.mayTarget).sum

/-- Sum of `w1Target` over the categories classified to brand `b`. -/
def w1SumFor (cats : List CatEntry) (b : String) : ℚ :=
  ((cats.filter (hitsBrand b)).map CatEntry.w1Target).sum

/-- The May-period dict entry produced for one grouped SKU row. -/
def mayEntry (mayT total : ℚ) (g : SkuGroup) : String × SkuPred :=
  (g.skuCode, ⟨mayT * (g.tonnage / total), g.tonnage / total, g.skuName, g.tonnage⟩)

/-- The W1-period dict entry produced for one grouped SKU row. -/
def w1Entry (w1T total : ℚ) (g : SkuGroup) : String × SkuPred :=
  (g.skuCode, ⟨w1T * (g.tonnage / total), g.tonnage / total, g.skuName, g.tonnage⟩)

/-- Modelled from the spec: the spec describes the classifier's fallback as
"upper-casing the category text with spaces replaced by hyphens and
parentheses stripped".  This definition follows the spec's words, to be
compared with the code's `fallbackCode` (which never strips parentheses). -/
def specFallbackCode (category : String) : String :=
  ⟨upperList (dashSpaces (category.data.filter (fun ch => !(ch == '(' || ch == ')'))))⟩

/-! ### Concrete inputs used by witnesses -/

/-- A raw row whose tonnage is `0`, hence filtered out by cleaning. -/
def badRow : RawRow := ⟨some "B", some "S1", "Item", some 0⟩

/-- The historical table of E2E Scenario A. -/
def e2eRecs : List HistRecord :=
  [⟨"SCG-PI", "A1", "Pipe 1in", 80⟩, ⟨"SCG-PI", "A2", "Pipe 2in", 20⟩]

/-- The target table of E2E Scenario A. -/
def e2eCats : List CatEntry := [⟨"MFG SCG Pipe", 200, 50⟩]

/-- The expected `SCG-PI` brand aggregate of E2E Scenario A. -/
def e2eBT : BrandTarget := ⟨200, 50, ["MFG SCG Pipe"], 100⟩

/-- The expected `SCG-PI` prediction of E2E Scenario A. -/
def e2ePred : Prediction :=
  ⟨200, 50, 100, ["MFG SCG Pipe"],
   [("A1", ⟨160, 4/5, "Pipe 1in", 80⟩), ("A2", ⟨40, 1/5, "Pipe 2in", 20⟩)],
   [("A1", ⟨40, 4/5, "Pipe 1in", 80⟩), ("A2", ⟨10, 1/5, "Pipe 2in", 20⟩)], 2⟩

/-- A historical table with one SKU (share 0.05%) below the 0.1% threshold. -/
def thrRecs : List HistRecord := [⟨"B", "X", "x", 1999⟩, ⟨"B", "Y", "y", 1⟩]

/-- A brand target for `thrRecs`. -/
def thrBT : BrandTarget := ⟨100, 10, [], 2000⟩

/-- The prediction for brand `B` of `thrRecs`: SKU `Y` is dropped. -/
def thrPred : Prediction :=
  ⟨100, 10, 2000, [],
   [("X", ⟨1999/20, 1999/2000, "x", 1999⟩)],
   [("X", ⟨1999/200, 1999/2000, "x", 1999⟩)], 2⟩

/-- A target table containing one brand (`MFG-ZORK`) with no historical data. -/
def c8Cats : List CatEntry := [⟨"MFG SCG Pipe", 200, 50⟩, ⟨"MFG Zork", 10, 5⟩]

/-! ### Lemmas on substring containment and stripping -/

theorem leadsWith_iff (p : List Char) : ∀ l, leadsWith p l = true ↔ ∃ t, l = p ++ t := by
  induction p with
  | nil =>
      intro l
      simp [leadsWith]
  | cons a ps ih =>
      intro l
      cases l with
      | nil => simp [leadsWith]
      | cons c cs =>
          simp only [leadsWith, Bool.and_eq_true, beq_iff_eq, ih, List.cons_append,
            List.cons.injEq]
          constructor
          · rintro ⟨rfl, t, rfl⟩
            exact ⟨t, rfl, rfl⟩
          · rintro ⟨t, rfl, rfl⟩
            exact ⟨rfl, t, rfl⟩

theorem occursIn_iff (p : List Char) : ∀ l, occursIn p l = true ↔ ∃ a t, l = a ++ (p ++ t) := by
  intro l
  induction l with
  | nil =>
      simp only [occursIn, List.isEmpty_iff]
      constructor
      · rintro rfl
        exact ⟨[], [], rfl⟩
      · rintro ⟨a, t, h⟩
        rcases List.append_eq_nil.mp h.symm with ⟨rfl, h2⟩
        rcases List.append_eq_nil.mp h2 with ⟨rfl, rfl⟩
        rfl
  | cons c cs ih =>
      simp only [occursIn, Bool.or_eq_true, leadsWith_iff, ih]
      constructor
      · rintro (⟨t, ht⟩ | ⟨a, t, ht⟩)
        · exact ⟨[], t, by simpa using ht⟩
        · exact ⟨c :: a, t, by simp [ht]⟩
      · rintro ⟨a, t, ht⟩
        cases a with
        | nil => exact Or.inl ⟨t, by simpa using ht⟩
        | cons x a' =>
            rcases List.cons.injEq .. ▸ ht with ⟨rfl, h2⟩
            exact Or.inr ⟨a', t, h2⟩

theorem occursEx_reverse (p l : List Char) :
    (∃ a t, l = a ++ (p ++ t)) ↔ ∃ a t, l.reverse = a ++ (p.reverse ++ t) := by
  constructor
  · rintro ⟨a, t, rfl⟩
    exact ⟨t.reverse, a.reverse, by simp [List.reverse_append, List.append_assoc]⟩
  · rintro ⟨a, t, h⟩
    refine ⟨t.reverse, a.reverse, ?_⟩
    rw [← List.reverse_reverse l, h]
    simp [List.reverse_append, List.append_assoc]

theorem occursEx_dropWhile (p : List Char) (hne : p ≠ [])
    (hws : ∀ ch ∈ p, isWsChar ch = false) :
    ∀ l : List Char,
      ((∃ a t, l.dropWhile isWsChar = a ++ (p ++ t)) ↔ ∃ a t, l = a ++ (p ++ t)) := by
  intro l
  induction l with
  | nil => simp
  | cons c cs ih =>
      rw [List.dropWhile_cons]
      by_cases hc : isWsChar c = true
      · rw [if_pos hc, ih]
        constructor
        · rintro ⟨a, t, ht⟩
          exact ⟨c :: a, t, by simp [ht]⟩
        · rintro ⟨a, t, ht⟩
          cases a with
          | nil =>
              exfalso
              cases p with
              | nil => exact hne rfl
              | cons q ps =>
                  rcases List.cons.injEq .. ▸ ht with ⟨rfl, -⟩
                  rw [hws c (by simp)] at hc
                  exact Bool.false_ne_true hc
          | cons x a' =>
              rcases List.cons.injEq .. ▸ ht with ⟨rfl, h2⟩
              exact ⟨a', t, h2⟩
      · rw [if_neg hc]

theorem occursIn_pyStrip (p : List Char) (hne : p ≠ [])
    (hws : ∀ ch ∈ p, isWsChar ch = false) (l : List Char) :
    occursIn p (pyStrip l) = occursIn p l := by
  have hne' : p.reverse ≠ [] := by simpa using hne
  have hws' : ∀ ch ∈ p.reverse, isWsChar ch = false := fun ch hch =>
    hws ch (List.mem_reverse.mp hch)
  have key : (∃ a t, pyStrip l = a ++ (p ++ t)) ↔ ∃ a t, l = a ++ (p ++ t) := by
    calc (∃ a t, pyStrip l = a ++ (p ++ t))
        ↔ ∃ a t, (pyStrip l).reverse = a ++ (p.reverse ++ t) := occursEx_reverse p _
      _ ↔ ∃ a t, (l.dropWhile isWsChar).reverse = a ++ (p.reverse ++ t) := by
            rw [show (pyStrip l).reverse
                  = ((l.dropWhile isWsChar).reverse).dropWhile isWsChar by
                simp [pyStrip, rtrimList, ltrimList]]
            exact occursEx_dropWhile p.reverse hne' hws' _
      _ ↔ ∃ a t, l.dropWhile isWsChar = a ++ (p ++ t) := (occursEx_reverse p _).symm
      _ ↔ ∃ a t, l = a ++ (p ++ t) := occursEx_dropWhile p hne hws l
  have key' : occursIn p (pyStrip l) = true ↔ occursIn p l = true := by
    rw [occursIn_iff, occursIn_iff]
    exact key
  cases h₁ : occursIn p (pyStrip l) <;> cases h₂ : occursIn p l <;> simp_all

/-! ### Lemmas on association lists -/

theorem assocLookup_dictInsert_self {α : Type} (m : List (String × α)) (k : String) (v : α) :
    assocLookup (dictInsert m k v) k = some v := by
  induction m with
  | nil => simp [dictInsert, assocLookup]
  | cons e rest ih =>
      obtain ⟨k', v'⟩ := e
      by_cases h : k' = k
      · subst h
        simp [dictInsert, assocLookup]
      · simp [dictInsert, assocLookup, h, ih]

theorem assocLookup_dictInsert_ne {α : Type} (m : List (String × α)) (k k' : String) (v : α)
    (h : k' ≠ k) : assocLookup (dictInsert m k v) k' = assocLookup m k' := by
  have h' : ¬ k = k' := fun hh => h hh.symm
  induction m with
  | nil => simp [dictInsert, assocLookup, h']
  | cons e rest ih =>
      obtain ⟨k₀, v₀⟩ := e
      by_cases h₀ : k₀ = k
      · subst h₀
        simp [dictInsert, assocLookup, h']
      · by_cases h₁ : k₀ = k'
        · subst h₁
          simp [dictInsert, assocLookup, h₀]
        · simp [dictInsert, assocLookup, h₀, h₁, ih]

theorem mem_assocKeys_dictInsert {α : Type} (m : List (String × α)) (k k₀ : String) (v : α) :
    k₀ ∈ assocKeys (dictInsert m k v) ↔ k₀ ∈ assocKeys m ∨ k₀ = k := by
  induction m with
  | nil => simp [dictInsert, assocKeys]
  | cons e rest ih =>
      obtain ⟨k', v'⟩ := e
      by_cases h : k' = k
      · subst h
        simp [dictInsert, assocKeys]
        tauto
      · simp only [dictInsert, if_neg h, assocKeys, List.map_cons, List.mem_cons] at *
        rw [ih]
        tauto

theorem assocKeys_nodup_dictInsert {α : Type} (m : List (String × α)) (k : String) (v : α)
    (h : (assocKeys m).Nodup) : (assocKeys (dictInsert m k v)).Nodup := by
  induction m with
  | nil => simp [dictInsert, assocKeys]
  | cons e rest ih =>
      obtain ⟨k', v'⟩ := e
      simp only [assocKeys, List.map_cons, List.nodup_cons] at h
      by_cases hk : k' = k
      · subst hk
        simpa [dictInsert, assocKeys, List.nodup_cons] using h
      · simp only [dictInsert, if_neg hk, assocKeys, List.map_cons, List.nodup_cons]
        refine ⟨?_, ih h.2⟩
        intro hmem
        rcases (mem_assocKeys_dictInsert rest k k' v).mp hmem with h₁ | h₁
        · exact h.1 h₁
        · exact hk h₁

theorem dictInsert_of_not_mem {α : Type} (m : List (String × α)) (k : String) (v : α)
    (h : k ∉ assocKeys m) : dictInsert m k v = m ++ [(k, v)] := by
  induction m with
  | nil => simp [dictInsert]
  | cons e rest ih =>
      obtain ⟨k', v'⟩ := e
      simp only [assocKeys, List.map_cons, List.mem_cons] at h
      push_neg at h
      have hne : ¬ k' = k := fun hh => h.1 hh.symm
      simp only [dictInsert, if_neg hne, List.cons_append, List.cons.injEq, true_and]
      exact ih h.2

theorem assocLookup_append_of_none {α : Type} (m n : List (String × α)) (k : String)
    (h : assocLookup m k = none) : assocLookup (m ++ n) k = assocLookup n k := by
  induction m with
  | nil => simp
  | cons e rest ih =>
      obtain ⟨k', v'⟩ := e
      by_cases hk : k' = k
      · simp [assocLookup, hk] at h
      · simp only [assocLookup, if_neg hk, List.cons_append] at *
        exact ih h

theorem assocLookup_append_of_some {α : Type} (m n : List (String × α)) (k : String) (v : α)
    (h : assocLookup m k = some v) : assocLookup (m ++ n) k = some v := by
  induction m with
  | nil => simp [assocLookup] at h
  | cons e rest ih =>
      obtain ⟨k', v'⟩ := e
      by_cases hk : k' = k
      · simpa [assocLookup, hk] using h
      · simp only [assocLookup, if_neg hk, List.cons_append] at *
        exact ih h

theorem assocLookup_eq_none_iff {α : Type} (m : List (String × α)) (k : String) :
    assocLookup m k = none ↔ k ∉ assocKeys m := by
  induction m with
  | nil => simp [assocLookup, assocKeys]
  | cons e rest ih =>
      obtain ⟨k', v'⟩ := e
      by_cases hk : k' = k
      · subst hk
        simp [assocLookup, assocKeys]
      · have hne : ¬ k = k' := fun hh => hk hh.symm
        simp only [assocLookup, if_neg hk, assocKeys, List.map_cons, List.mem_cons]
        rw [ih]
        simp [not_or, hne, assocKeys]

theorem assocLookup_mem {α : Type} (m : List (String × α)) (k : String) (v : α)
    (h : assocLookup m k = some v) : (k, v) ∈ m := by
  induction m with
  | nil => simp [assocLookup] at h
  | cons e rest ih =>
      obtain ⟨k', v'⟩ := e
      by_cases hk : k' = k
      · subst hk
        have hv : v' = v := by simpa [assocLookup] using h
        subst hv
        exact List.mem_cons_self _ _
      · simp only [assocLookup, if_neg hk] at h
        exact List.mem_cons_of_mem _ (ih h)

theorem assocLookup_isSome_iff {α : Type} (m : List (String × α)) (k : String) :
    (assocLookup m k).isSome = true ↔ k ∈ assocKeys m := by
  cases h : assocLookup m k with
  | none => simp [(assocLookup_eq_none_iff m k).mp h]
  | some v =>
      simp only [Option.isSome_some, true_iff]
      exact List.mem_map_of_mem Prod.fst (assocLookup_mem m k v h)

/-! ### Characterization of the target aggregation -/

theorem accumBT_cons (base : BrandTarget) (e : CatEntry) (l : List CatEntry) :
    accumBT base (e :: l) = accumBT (accumBT base [e]) l := by
  simp [accumBT, BrandTarget.mk.injEq, add_assoc]

theorem agg_lookup_char (recs : List HistRecord) (b : String) :
    ∀ (cats : List CatEntry) (acc : List (String × BrandTarget)),
      assocLookup (cats.foldl (aggStep recs) acc) b =
        if (cats.filter (hitsBrand b)).isEmpty then assocLookup acc b
        else some (accumBT ((assocLookup acc b).getD (initBrand recs b))
                     (cats.filter (hitsBrand b))) := by
  intro cats
  induction cats with
  | nil =>
      intro acc
      simp
  | cons e rest ih =>
      intro acc
      simp only [List.foldl_cons, List.filter_cons]
      cases hcl : classifyCategory e.category with
      | none =>
          have hhit : hitsBrand b e = false := by simp [hitsBrand, hcl]
          have hstep : aggStep recs acc e = acc := by simp [aggStep, hcl]
          rw [hhit, hstep]
          simpa using ih acc
      | some b' =>
          by_cases hb : b' = b
          · subst hb
            have hhit : hitsBrand b' e = true := by simp [hitsBrand, hcl]
            have hstep : aggStep recs acc e =
                dictInsert acc b'
                  (accumBT ((assocLookup acc b').getD (initBrand recs b')) [e]) := by
              simp [aggStep, hcl, accumBT, BrandTarget.mk.injEq]
            rw [hhit, hstep, if_pos rfl, ih]
            rw [assocLookup_dictInsert_self]
            by_cases hrest : (rest.filter (hitsBrand b')).isEmpty
            · rw [List.isEmpty_iff.mp hrest]
              simp
            · simp only [hrest, if_false, List.isEmpty_cons, Bool.false_eq_true,
                Option.getD_some]
              rw [← accumBT_cons]
          · have hhit : hitsBrand b e = false := by simp [hitsBrand, hcl, hb]
            have hb' : b ≠ b' := fun hh => hb hh.symm
            have hstep : assocLookup (aggStep recs acc e) b = assocLookup acc b := by
              simp only [aggStep, hcl]
              exact assocLookup_dictInsert_ne _ _ _ _ hb'
            rw [hhit, ih]
            simp [hstep]

/-- The `brand_targets_agg` lookup, fully characterized. -/
theorem mapCats_lookup (cats : List CatEntry) (recs : List HistRecord) (b : String) :
    assocLookup (mapCategoriesToBrands cats recs) b =
      if (cats.filter (hitsBrand b)).isEmpty then none
      else some (accumBT (initBrand recs b) (cats.filter (hitsBrand b))) := by
  unfold mapCategoriesToBrands
  rw [agg_lookup_char]
  simp [assocLookup]

theorem mapCats_keys_nodup (cats : List CatEntry) (recs : List HistRecord) :
    (assocKeys (mapCategoriesToBrands cats recs)).Nodup := by
  suffices h : ∀ (l : List CatEntry) (acc : List (String × BrandTarget)),
      (assocKeys acc).Nodup → (assocKeys (l.foldl (aggStep recs) acc)).Nodup by
    exact h cats [] (by simp [assocKeys])
  intro l
  induction l with
  | nil => intro acc hacc; simpa using hacc
  | cons e rest ih =>
      intro acc hacc
      simp only [List.foldl_cons]
      apply ih
      cases hcl : classifyCategory e.category with
      | none => simpa [aggStep, hcl] using hacc
      | some b' =>
          simp only [aggStep, hcl]
          exact assocKeys_nodup_dictInsert _ _ _ hacc

/-! ### Grouping lemmas -/

theorem addRecord_pos (gs : List SkuGroup) (r : HistRecord)
    (hg : ∀ g ∈ gs, 0 < g.tonnage) (hr : 0 < r.tonnage) :
    ∀ g ∈ addRecord gs r, 0 < g.tonnage := by
  induction gs with
  | nil =>
      intro g hgmem
      simp only [addRecord, List.mem_singleton] at hgmem
      subst hgmem
      exact hr
  | cons g₀ rest ih =>
      intro g hgmem
      simp only [addRecord] at hgmem
      by_cases hkey : g₀.brand = r.brand ∧ g₀.skuCode = r.skuCode ∧ g₀.skuName = r.skuName
      · rw [if_pos hkey] at hgmem
        rcases List.mem_cons.mp hgmem with rfl | hmem
        · exact add_pos (hg g₀ (List.mem_cons_self _ _)) hr
        · exact hg g (List.mem_cons_of_mem _ hmem)
      · rw [if_neg hkey] at hgmem
        rcases List.mem_cons.mp hgmem with rfl | hmem
        · exact hg g (List.mem_cons_self _ _)
        · exact ih (fun g' hg' => hg g' (List.mem_cons_of_mem _ hg')) g hmem

theorem groupRecords_pos (recs : List HistRecord)
    (hpos : ∀ r ∈ recs, 0 < r.tonnage) :
    ∀ g ∈ groupRecords recs, 0 < g.tonnage := by
  suffices h : ∀ (l : List HistRecord) (gs : List SkuGroup),
      (∀ g ∈ gs, 0 < g.tonnage) → (∀ r ∈ l, 0 < r.tonnage) →
      ∀ g ∈ l.foldl addRecord gs, 0 < g.tonnage by
    exact h recs [] (by simp) hpos
  intro l
  induction l with
  | nil => intro gs hgs _ g hgmem; exact hgs g (by simpa using hgmem)
  | cons r rest ih =>
      intro gs hgs hl g hgmem
      simp only [List.foldl_cons] at hgmem
      exact ih (addRecord gs r)
        (addRecord_pos gs r hgs (hl r (List.mem_cons_self _ _)))
        (fun r' hr' => hl r' (List.mem_cons_of_mem _ hr')) g hgmem

theorem addRecord_brand (gs : List SkuGroup) (r : HistRecord) :
    ∀ g ∈ addRecord gs r, (∃ g₀ ∈ gs, g.brand = g₀.brand) ∨ g.brand = r.brand := by
  induction gs with
  | nil =>
      intro g hgmem
      simp only [addRecord, List.mem_singleton] at hgmem
      subst hgmem
      exact Or.inr rfl
  | cons g₀ rest ih =>
      intro g hgmem
      simp only [addRecord] at hgmem
      by_cases hkey : g₀.brand = r.brand ∧ g₀.skuCode = r.skuCode ∧ g₀.skuName = r.skuName
      · rw [if_pos hkey] at hgmem
        rcases List.mem_cons.mp hgmem with rfl | hmem
        · exact Or.inl ⟨g₀, List.mem_cons_self _ _, rfl⟩
        · exact Or.inl ⟨g, List.mem_cons_of_mem _ hmem, rfl⟩
      · rw [if_neg hkey] at hgmem
        rcases List.mem_cons.mp hgmem with rfl | hmem
        · exact Or.inl ⟨g, List.mem_cons_self _ _, rfl⟩
        · rcases ih g hmem with ⟨g₁, hg₁, heq⟩ | heq
          · exact Or.inl ⟨g₁, List.mem_cons_of_mem _ hg₁, heq⟩
          · exact Or.inr heq

theorem foldl_addRecord_brand :
    ∀ (l : List HistRecord) (gs : List SkuGroup),
      ∀ g ∈ l.foldl addRecord gs,
        (∃ g₀ ∈ gs, g.brand = g₀.brand) ∨ ∃ r ∈ l, g.brand = r.brand := by
  intro l
  induction l with
  | nil =>
      intro gs g hgmem
      exact Or.inl ⟨g, by simpa using hgmem, rfl⟩
  | cons r rest ih =>
      intro gs g hgmem
      simp only [List.foldl_cons] at hgmem
      rcases ih (addRecord gs r) g hgmem with ⟨g₀, hg₀, heq⟩ | ⟨r', hr', heq⟩
      · rcases addRecord_brand gs r g₀ hg₀ with ⟨g₁, hg₁, heq₁⟩ | heq₁
        · exact Or.inl ⟨g₁, hg₁, heq.trans heq₁⟩
        · exact Or.inr ⟨r, List.mem_cons_self _ _, heq.trans heq₁⟩
      · exact Or.inr ⟨r', List.mem_cons_of_mem _ hr', heq⟩

theorem groupRecords_brand (recs : List HistRecord) :
    ∀ g ∈ groupRecords recs, ∃ r ∈ recs, g.brand = r.brand := by
  intro g hg
  rcases foldl_addRecord_brand recs [] g hg with ⟨g₀, hg₀, -⟩ | h
  · simp at hg₀
  · exact h

/-- If a brand has no historical records, it has no grouped SKU rows. -/
theorem brandSkus_nil_of_no_records (recs : List HistRecord) (b : String)
    (hno : recs.filter (fun r => r.brand == b) = []) : brandSkus recs b = [] := by
  rw [List.filter_eq_nil_iff] at hno
  unfold brandSkus
  rw [List.filter_eq_nil_iff]
  intro g hg
  rcases groupRecords_brand recs g hg with ⟨r, hr, heq⟩
  have := hno r hr
  simp only [beq_iff_eq] at this ⊢
  rw [heq]
  exact this

/-- Any brand with at least one grouped row has a positive total (the
denominator of every `Percentage` of that brand). -/
theorem brandSkuTotal_pos (recs : List HistRecord) (b : String)
    (hpos : ∀ r ∈ recs, 0 < r.tonnage) (hne : brandSkus recs b ≠ []) :
    0 < brandSkuTotal recs b := by
  unfold brandSkuTotal
  apply List.sum_pos
  · intro t ht
    rcases List.mem_map.mp ht with ⟨g, hg, rfl⟩
    exact groupRecords_pos recs hpos g (List.mem_of_mem_filter hg)
  · simpa using hne

/-! ### Distribution engine lemmas -/

theorem assocKeys_append {α : Type} (m n : List (String × α)) :
    assocKeys (m ++ n) = assocKeys m ++ assocKeys n := List.map_append _ _ _

theorem distStep_pass (mayT w1T total : ℚ)
    (acc : List (String × SkuPred) × List (String × SkuPred)) (g : SkuGroup)
    (h : 1 / 1000 ≤ g.tonnage / total) :
    distStep mayT w1T total acc g =
      (dictInsert acc.1 g.skuCode
         ⟨mayT * (g.tonnage / total), g.tonnage / total, g.skuName, g.tonnage⟩,
       dictInsert acc.2 g.skuCode
         ⟨w1T * (g.tonnage / total), g.tonnage / total, g.skuName, g.tonnage⟩) := by
  unfold distStep
  rw [if_pos h]

theorem distStep_skip (mayT w1T total : ℚ)
    (acc : List (String × SkuPred) × List (String × SkuPred)) (g : SkuGroup)
    (h : ¬ 1 / 1000 ≤ g.tonnage / total) :
    distStep mayT w1T total acc g = acc := by
  unfold distStep
  rw [if_neg h]

/-- When all rows pass the threshold and the SKU codes are distinct, the
dict-building fold is a plain map — no key is ever overwritten. -/
theorem foldl_distStep_eq_append (mayT w1T total : ℚ) :
    ∀ (l : List SkuGroup) (accM accW : List (String × SkuPred)),
      (l.map SkuGroup.skuCode).Nodup →
      (∀ g ∈ l, g.skuCode ∉ assocKeys accM) →
      (∀ g ∈ l, g.skuCode ∉ assocKeys accW) →
      (∀ g ∈ l, 1 / 1000 ≤ g.tonnage / total) →
      l.foldl (distStep mayT w1T total) (accM, accW) =
        (accM ++ l.map (mayEntry mayT total), accW ++ l.map (w1Entry w1T total)) := by
  intro l
  induction l with
  | nil =>
      intro accM accW _ _ _ _
      simp
  | cons g rest ih =>
      intro accM accW hnd hM hW hth
      have hg : 1 / 1000 ≤ g.tonnage / total := hth g (List.mem_cons_self _ _)
      have hnd' : (rest.map SkuGroup.skuCode).Nodup :=
        (List.nodup_cons.mp (by simpa using hnd)).2
      have hcode : g.skuCode ∉ rest.map SkuGroup.skuCode :=
        (List.nodup_cons.mp (by simpa using hnd)).1
      simp only [List.foldl_cons]
      rw [distStep_pass _ _ _ _ _ hg]
      rw [dictInsert_of_not_mem _ _ _ (hM g (List.mem_cons_self _ _)),
          dictInsert_of_not_mem _ _ _ (hW g (List.mem_cons_self _ _))]
      rw [ih _ _ hnd'
          (fun g' hg' => by
            rw [assocKeys_append, List.mem_append]
            rintro (h | h)
            · exact hM g' (List.mem_cons_of_mem _ hg') h
            · simp only [assocKeys, List.map_cons, List.map_nil, List.mem_singleton] at h
              exact hcode (h ▸ List.mem_map_of_mem _ hg'))
          (fun g' hg' => by
            rw [assocKeys_append, List.mem_append]
            rintro (h | h)
            · exact hW g' (List.mem_cons_of_mem _ hg') h
            · simp only [assocKeys, List.map_cons, List.map_nil, List.mem_singleton] at h
              exact hcode (h ▸ List.mem_map_of_mem _ hg'))
          (fun g' hg' => hth g' (List.mem_cons_of_mem _ hg'))]
      simp [mayEntry, w1Entry, List.append_assoc]

/-- Key membership in the built dicts: a code is present iff some grouped row
with that code passes the `0.001` share threshold. -/
theorem foldl_distStep_mem_keys (mayT w1T total : ℚ) (code : String) :
    ∀ (l : List SkuGroup) (accM accW : List (String × SkuPred)),
      (code ∈ assocKeys ((l.foldl (distStep mayT w1T total) (accM, accW)).1) ↔
        code ∈ assocKeys accM ∨ ∃ g ∈ l, g.skuCode = code ∧ 1 / 1000 ≤ g.tonnage / total)
      ∧
      (code ∈ assocKeys ((l.foldl (distStep mayT w1T total) (accM, accW)).2) ↔
        code ∈ assocKeys accW ∨ ∃ g ∈ l, g.skuCode = code ∧ 1 / 1000 ≤ g.tonnage / total) := by
  intro l
  induction l with
  | nil =>
      intro accM accW
      simp
  | cons g rest ih =>
      intro accM accW
      simp only [List.foldl_cons]
      by_cases hg : 1 / 1000 ≤ g.tonnage / total
      · rw [distStep_pass _ _ _ _ _ hg]
        constructor
        · rw [(ih _ _).1, mem_assocKeys_dictInsert]
          simp only [List.exists_mem_cons_iff, hg, and_true]
          constructor
          · rintro ((h | h) | h)
            · exact Or.inl h
            · exact Or.inr (Or.inl h.symm)
            · exact Or.inr (Or.inr h)
          · rintro (h | h | h)
            · exact Or.inl (Or.inl h)
            · exact Or.inl (Or.inr h.symm)
            · exact Or.inr h
        · rw [(ih _ _).2, mem_assocKeys_dictInsert]
          simp only [List.exists_mem_cons_iff, hg, and_true]
          constructor
          · rintro ((h | h) | h)
            · exact Or.inl h
            · exact Or.inr (Or.inl h.symm)
            · exact Or.inr (Or.inr h)
          · rintro (h | h | h)
            · exact Or.inl (Or.inl h)
            · exact Or.inl (Or.inr h.symm)
            · exact Or.inr h
      · rw [distStep_skip _ _ _ _ _ hg]
        constructor
        · rw [(ih _ _).1]
          simp only [List.exists_mem_cons_iff]
          constructor
          · rintro (h | h)
            · exact Or.inl h
            · exact Or.inr (Or.inr h)
          · rintro (h | h | h)
            · exact Or.inl h
            · exact absurd h.2 hg
            · exact Or.inr h
        · rw [(ih _ _).2]
          simp only [List.exists_mem_cons_iff]
          constructor
          · rintro (h | h)
            · exact Or.inl h
            · exact Or.inr (Or.inr h)
          · rintro (h | h | h)
            · exact Or.inl h
            · exact absurd h.2 hg
            · exact Or.inr h

/-- Unpacking a successful per-brand prediction. -/
theorem predictBrand_some (recs : List HistRecord) (b : String) (bt : BrandTarget)
    (p : Prediction) (hp : predictBrand recs b bt = some p) :
    brandSkus recs b ≠ [] ∧ p = mkPrediction bt (brandSkus recs b) := by
  unfold predictBrand at hp
  by_cases h : (brandSkus recs b).isEmpty
  · rw [if_pos h] at hp
    cases hp
  · rw [if_neg h] at hp
    refine ⟨fun hnil => h (by simp [hnil]), ?_⟩
    injection hp with h'
    exact h'.symm

/-! ### Prediction pipeline lookups -/

theorem predStep_lookup_ne (recs : List HistRecord) (acc : List (String × Prediction))
    (pr : String × BrandTarget) (b : String) (hb : pr.1 ≠ b) :
    assocLookup (predStep recs acc pr) b = assocLookup acc b := by
  unfold predStep
  cases predictBrand recs pr.1 pr.2 with
  | none => rfl
  | some p =>
      cases hacc : assocLookup acc b with
      | some v => simp [assocLookup_append_of_some _ _ _ _ hacc]
      | none =>
          rw [assocLookup_append_of_none _ _ _ hacc]
          simp [assocLookup, hb, hacc]

theorem foldl_predStep_notmem (recs : List HistRecord) :
    ∀ (bts : List (String × BrandTarget)) (acc : List (String × Prediction)) (b : String),
      b ∉ assocKeys bts →
      assocLookup (bts.foldl (predStep recs) acc) b = assocLookup acc b := by
  intro bts
  induction bts with
  | nil => intro acc b _; rfl
  | cons pr rest ih =>
      intro acc b hb
      simp only [assocKeys, List.map_cons, List.mem_cons] at hb
      push_neg at hb
      simp only [List.foldl_cons]
      rw [ih _ b (by simpa [assocKeys] using hb.2)]
      exact predStep_lookup_ne recs acc pr b (fun hh => hb.1 hh.symm)

theorem foldl_predStep_lookup (recs : List HistRecord) :
    ∀ (bts : List (String × BrandTarget)) (acc : List (String × Prediction))
      (b : String) (bt : BrandTarget),
      (assocKeys bts).Nodup → (b, bt) ∈ bts → assocLookup acc b = none →
      assocLookup (bts.foldl (predStep recs) acc) b = predictBrand recs b bt := by
  intro bts
  induction bts with
  | nil =>
      intro acc b bt _ hmem _
      simp at hmem
  | cons pr rest ih =>
      intro acc b bt hnd hmem hacc
      obtain ⟨b₀, bt₀⟩ := pr
      simp only [assocKeys, List.map_cons, List.nodup_cons] at hnd
      rcases List.mem_cons.mp hmem with heq | hmem'
      · obtain ⟨rfl, rfl⟩ := Prod.mk.injEq .. ▸ heq
        simp only [List.foldl_cons]
        rw [foldl_predStep_notmem recs rest _ b (by simpa [assocKeys] using hnd.1)]
        unfold predStep
        cases hp : predictBrand recs b bt with
        | none => simpa using hacc
        | some p =>
            simp only
            rw [assocLookup_append_of_none _ _ _ hacc]
            simp [assocLookup]
      · have hb : b₀ ≠ b := by
          intro h
          subst h
          exact hnd.1 (by
            have : b₀ ∈ (rest.map Prod.fst) := List.mem_map_of_mem Prod.fst hmem'
            simpa [assocKeys] using this)
        simp only [List.foldl_cons]
        apply ih _ b bt (by simpa [assocKeys] using hnd.2) hmem'
        rw [predStep_lookup_ne recs acc _ b hb]
        exact hacc

/-- The pipeline lookup: each brand of `brand_targets_agg` gets exactly its
own per-brand computation. -/
theorem predictSkuDistribution_lookup (bts : List (String × BrandTarget))
    (recs : List HistRecord) (b : String) (bt : BrandTarget)
    (hnd : (assocKeys bts).Nodup) (hbt : assocLookup bts b = some bt) :
    assocLookup (predictSkuDistribution bts recs) b = predictBrand recs b bt := by
  unfold predictSkuDistribution
  by_cases hrecs : recs.isEmpty
  · rw [if_pos hrecs]
    have hnil : recs = [] := List.isEmpty_iff.mp hrecs
    subst hnil
    simp [assocLookup, predictBrand, brandSkus, groupRecords]
  · rw [if_neg hrecs]
    exact foldl_predStep_lookup recs bts [] b bt hnd (assocLookup_mem _ _ _ hbt) rfl

/-! ### Risk classification lemmas -/

theorem riskOf_eq_high_iff (g : ℚ) : riskOf g = RiskLevel.High ↔ 3 < g := by
  unfold riskOf
  by_cases h1 : 3 < g
  · rw [if_pos h1]
    exact iff_of_true rfl h1
  · rw [if_neg h1]
    by_cases h2 : 3 / 2 < g
    · rw [if_pos h2]
      exact iff_of_false (by decide) h1
    · rw [if_neg h2]
      exact iff_of_false (by decide) h1

theorem riskOf_eq_medium_iff (g : ℚ) :
    riskOf g = RiskLevel.Medium ↔ (3 / 2 < g ∧ g ≤ 3) := by
  unfold riskOf
  by_cases h1 : 3 < g
  · rw [if_pos h1]
    refine iff_of_false (by decide) ?_
    rintro ⟨-, hle⟩
    linarith
  · rw [if_neg h1]
    by_cases h2 : 3 / 2 < g
    · rw [if_pos h2]
      exact iff_of_true rfl ⟨h2, by linarith [not_lt.mp h1]⟩
    · rw [if_neg h2]
      refine iff_of_false (by decide) ?_
      rintro ⟨hh, -⟩
      exact h2 hh

theorem riskOf_eq_low_iff (g : ℚ) : riskOf g = RiskLevel.Low ↔ g ≤ 3 / 2 := by
  unfold riskOf
  by_cases h1 : 3 < g
  · rw [if_pos h1]
    refine iff_of_false (by decide) ?_
    intro h
    linarith
  · rw [if_neg h1]
    by_cases h2 : 3 / 2 < g
    · rw [if_pos h2]
      refine iff_of_false (by decide) ?_
      intro h
      linarith
    · rw [if_neg h2]
      exact iff_of_true rfl (not_lt.mp h2)

/-! ### Claim theorems -/

/-- C1, counterexample: for a brand with `historicalTonnage == 0` the code
computes growth ratio `0` (classified Low), not the claimed sentinel `5.0`
(which would classify High). -/
theorem C1_counterexample :
    brandGrowth ⟨10, 2, [], 0⟩ = 0
    ∧ brandGrowth ⟨10, 2, [], 0⟩ ≠ 5
    ∧ riskOf (brandGrowth ⟨10, 2, [], 0⟩) = RiskLevel.Low
    ∧ RiskLevel.Low ≠ RiskLevel.High := by
  have h0 : brandGrowth ⟨10, 2, [], 0⟩ = 0 := by
    unfold brandGrowth
    rw [if_neg (lt_irrefl 0)]
  refine ⟨h0, ?_, ?_, by decide⟩
  · rw [h0]
    norm_num
  · rw [h0]
    exact (riskOf_eq_low_iff 0).mpr (by norm_num)

/-- C1 (amended): the derived growth ratio equals
`mayTarget / historicalTonnage` when `historicalTonnage > 0` and equals `0`
(not 5.0) otherwise; risk is High iff ratio > 3, Medium iff 1.5 < ratio ≤ 3,
and Low iff ratio ≤ 1.5. -/
theorem C1_growth_risk (bt : BrandTarget) :
    (0 < bt.historicalTonnage → brandGrowth bt = bt.mayTarget / bt.historicalTonnage)
    ∧ (¬ 0 < bt.historicalTonnage → brandGrowth bt = 0)
    ∧ (riskOf (brandGrowth bt) = RiskLevel.High ↔ 3 < brandGrowth bt)
    ∧ (riskOf (brandGrowth bt) = RiskLevel.Medium ↔
        (3 / 2 < brandGrowth bt ∧ brandGrowth bt ≤ 3))
    ∧ (riskOf (brandGrowth bt) = RiskLevel.Low ↔ brandGrowth bt ≤ 3 / 2) := by
  refine ⟨?_, ?_, riskOf_eq_high_iff _, riskOf_eq_medium_iff _, riskOf_eq_low_iff _⟩
  · intro h
    unfold brandGrowth
    rw [if_pos h]
  · intro h
    unfold brandGrowth
    rw [if_neg h]

/-- C1 witness: the amended growth/risk computation at a concrete brand
(target 200, historical 100 ⇒ ratio 2, Medium). -/
theorem C1_growth_risk_witness :
    brandGrowth ⟨200, 50, ["MFG SCG Pipe"], 100⟩ = 2
    ∧ riskOf (brandGrowth ⟨200, 50, ["MFG SCG Pipe"], 100⟩) = RiskLevel.Medium := by
  have h := C1_growth_risk ⟨200, 50, ["MFG SCG Pipe"], 100⟩
  have hpos : (0:ℚ) < (⟨200, 50, ["MFG SCG Pipe"], 100⟩ : BrandTarget).historicalTonnage := by
    show (0:ℚ) < 100
    norm_num
  have h1 : brandGrowth ⟨200, 50, ["MFG SCG Pipe"], 100⟩ = 2 := by
    rw [h.1 hpos]
    show (200:ℚ) / 100 = 2
    norm_num
  refine ⟨h1, (h.2.2.2.1).mpr ?_⟩
  rw [h1]
  constructor <;> norm_num

/-- C2, counterexample: an input whose single row is filtered out (tonnage 0)
still yields the successful empty table `some []`, not a typed
`NoValidRecords` failure (the code has no such branch). -/
theorem C2_counterexample :
    (∀ r ∈ [badRow], rowToRecord r = none)
    ∧ processHistoricalRows [badRow] = some [] := by decide

/-- C2 (amended): when every row is filtered out (non-positive/unparseable
tonnage or empty/`nan` brand or SKU code), the cleaning stage returns the
empty record table as a successful result; the code defines no
`NoValidRecords` failure (`None` arises only from header/column failures). -/
theorem C2_empty_success (rows : List RawRow) (h : ∀ r ∈ rows, rowToRecord r = none) :
    processHistoricalRows rows = some [] ∧ cleanRows rows = [] := by
  have hclean : cleanRows rows = [] := by
    unfold cleanRows
    rw [List.filterMap_eq_nil_iff]
    exact h
  exact ⟨by unfold processHistoricalRows; rw [hclean], hclean⟩

/-- C2 witness: the amended behaviour at the concrete all-filtered input. -/
theorem C2_empty_success_witness :
    processHistoricalRows [badRow] = some [] ∧ cleanRows [badRow] = [] :=
  C2_empty_success [badRow] (by decide)

/-- C3: end-to-end on E2E Scenario A — brand `SCG-PI` aggregates to
`{mayTarget 200, w1Target 50, historicalTonnage 100}`, the May distribution
is `A1 ↦ 160 tons (80%)`, `A2 ↦ 40 tons (20%)`, and the growth ratio is
`2.0`, classified Medium. -/
theorem C3_e2e :
    mapCategoriesToBrands e2eCats e2eRecs = [("SCG-PI", e2eBT)]
    ∧ assocLookup (predictSkuDistribution (mapCategoriesToBrands e2eCats e2eRecs) e2eRecs)
        "SCG-PI" = some e2ePred
    ∧ e2ePred.mayDistribution =
        [("A1", ⟨160, 4/5, "Pipe 1in", 80⟩), ("A2", ⟨40, 1/5, "Pipe 2in", 20⟩)]
    ∧ brandGrowth e2eBT = 2
    ∧ riskOf (brandGrowth e2eBT) = RiskLevel.Medium := by
  have hcl : classifyCategory "MFG SCG Pipe" = some "SCG-PI" := by decide
  have hA : ("A1" : String) ≠ "A2" := by decide
  have hmap : mapCategoriesToBrands e2eCats e2eRecs = [("SCG-PI", e2eBT)] := by
    norm_num [mapCategoriesToBrands, aggStep, e2eCats, e2eRecs, e2eBT, initBrand,
      brandTotal, assocLookup, dictInsert, hcl]
  have hgrowth : brandGrowth e2eBT = 2 := by
    unfold brandGrowth e2eBT
    norm_num
  refine ⟨hmap, ?_, rfl, hgrowth, ?_⟩
  · rw [hmap]
    norm_num [predictSkuDistribution, predStep, predictBrand, brandSkus, groupRecords,
      addRecord, e2eRecs, mkPrediction, brandDistPair, distStep, dictInsert, e2eBT,
      e2ePred, assocLookup, hA]
  · rw [hgrowth]
    exact (riskOf_eq_medium_iff 2).mpr (by norm_num)

/-- C5: the classifier excludes a category iff the category text does not
contain the marker `"mfg"` case-insensitively (trimming cannot create or
destroy an occurrence); consequently every marker-bearing category is
assigned some brand code, and excluded categories contribute to no
`BrandTarget` — aggregation over a category list equals aggregation over
its non-excluded sublist. -/
theorem C5_classifier_exclusion :
    (∀ c : String, classifyCategory c = none ↔
      occursIn mfgTok (lowerList c.data) = false)
    ∧ ∀ (cats : List CatEntry) (recs : List HistRecord),
        mapCategoriesToBrands cats recs =
          mapCategoriesToBrands
            (cats.filter (fun e => (classifyCategory e.category).isSome)) recs := by
  constructor
  · intro c
    have hstrip : occursIn mfgTok (catLower c) = occursIn mfgTok (lowerList c.data) := by
      unfold catLower
      exact occursIn_pyStrip mfgTok (by decide) (by decide) (lowerList c.data)
    rw [← hstrip]
    constructor
    · intro hnone
      by_contra hb
      rw [Bool.not_eq_false] at hb
      unfold classifyCategory at hnone
      rw [if_pos hb] at hnone
      repeat' split at hnone
      all_goals simp at hnone
    · intro hfalse
      unfold classifyCategory
      rw [if_neg (by simp [hfalse])]
  · intro cats recs
    unfold mapCategoriesToBrands
    suffices h : ∀ (l : List CatEntry) (acc : List (String × BrandTarget)),
        l.foldl (aggStep recs) acc =
          (l.filter (fun e => (classifyCategory e.category).isSome)).foldl
            (aggStep recs) acc by
      exact h cats []
    intro l
    induction l with
    | nil => intro acc; rfl
    | cons e rest ih =>
        intro acc
        simp only [List.foldl_cons, List.filter_cons]
        cases hcl : classifyCategory e.category with
        | none =>
            have hstep : aggStep recs acc e = acc := by simp [aggStep, hcl]
            simp only [hcl, Option.isSome_none, Bool.false_eq_true, if_false, hstep]
            exact ih acc
        | some b =>
            simp only [hcl, Option.isSome_some, if_true, List.foldl_cons]
            exact ih (aggStep recs acc e)

/-- C6, counterexample: on the manufacturing category `"MFG Zebra (Special)"`
(no brand/product token) the code produces `"MFG-ZEBRA-(SPECIAL)"` — the
parentheses are NOT stripped, contrary to the claimed derivation. -/
theorem C6_counterexample :
    classifyCategory "MFG Zebra (Special)" = some "MFG-ZEBRA-(SPECIAL)"
    ∧ specFallbackCode "MFG Zebra (Special)" = "MFG-ZEBRA-SPECIAL"
    ∧ classifyCategory "MFG Zebra (Special)" ≠
        some (specFallbackCode "MFG Zebra (Special)") := by decide

/-- C6 (amended): for a manufacturing category matching none of the brand
tokens (`scg`, `mizu`, `icon`/`micon`) and none of the product tokens
(`pipe`, `conduit`, `fitting`, `valve`), the classifier derives the brand
code by upper-casing the category text with spaces replaced by hyphens —
parentheses are retained, not stripped. -/
theorem C6_fallback (c : String)
    (hmfg : occursIn mfgTok (catLower c) = true)
    (hscg : occursIn scgTok (catLower c) = false)
    (hmizu : occursIn mizuTok (catLower c) = false)
    (hicon : occursIn iconTok (catLower c) = false)
    (hmicon : occursIn miconTok (catLower c) = false)
    (hpipe : occursIn pipeTok (catLower c) = false)
    (hconduit : occursIn conduitTok (catLower c) = false)
    (hfit : occursIn fittingTok (catLower c) = false)
    (hvalve : occursIn valveTok (catLower c) = false) :
    classifyCategory c = some (fallbackCode c) := by
  unfold classifyCategory
  simp [hmfg, hscg, hmizu, hicon, hmicon, hpipe, hfit, hvalve]

/-- C6 witness: the amended fallback derivation at a concrete category. -/
theorem C6_fallback_witness :
    classifyCategory "MFG Zork Co" = some (fallbackCode "MFG Zork Co") :=
  C6_fallback "MFG Zork Co" (by decide) (by decide) (by decide) (by decide) (by decide)
    (by decide) (by decide) (by decide) (by decide)

/-- C9: under the ingestion invariant (every record's tonnage is positive),
every brand that has at least one grouped SKU row has a strictly positive
total — the denominator of each `Percentage` is never zero — and a brand
whose total is zero has no SKU rows at all (they are "omitted"). -/
theorem C9_division_guard (recs : List HistRecord)
    (hpos : ∀ r ∈ recs, 0 < r.tonnage) :
    (∀ b, brandSkus recs b ≠ [] → 0 < brandSkuTotal recs b)
    ∧ (∀ b, brandSkuTotal recs b = 0 → brandSkus recs b = []) := by
  refine ⟨fun b hne => brandSkuTotal_pos recs b hpos hne, fun b h0 => ?_⟩
  by_contra hne
  exact absurd h0 (ne_of_gt (brandSkuTotal_pos recs b hpos hne))

/-- C9 witness: the division guard at the concrete E2E table. -/
theorem C9_division_guard_witness :
    0 < brandSkuTotal e2eRecs "SCG-PI" ∧ brandSkus e2eRecs "NOPE" = [] := by
  have h := C9_division_guard e2eRecs (by decide)
  exact ⟨h.1 "SCG-PI" (by decide), h.2 "NOPE" (by decide)⟩

/-- C4: distribution conservation — for a brand with a prediction whose
grouped SKU codes are distinct and whose shares all reach the 0.1%
threshold, the May distribution's predicted tonnages sum exactly to the
brand's `mayTarget` (exact in `ℚ`, hence within any tolerance): each
predicted tonnage is `mayTarget * percentage` and the percentages sum
to 1. -/
theorem C4_conservation (recs : List HistRecord) (b : String) (bt : BrandTarget)
    (p : Prediction)
    (hpos : ∀ r ∈ recs, 0 < r.tonnage)
    (hp : predictBrand recs b bt = some p)
    (huniq : ((brandSkus recs b).map SkuGroup.skuCode).Nodup)
    (hthr : ∀ g ∈ brandSkus recs b, 1 / 1000 ≤ g.tonnage / brandSkuTotal recs b) :
    (p.mayDistribution.map (fun e => e.2.tonnage)).sum = bt.mayTarget := by
  obtain ⟨hne, rfl⟩ := predictBrand_some recs b bt p hp
  have htot : 0 < brandSkuTotal recs b := brandSkuTotal_pos recs b hpos hne
  have hmd : (mkPrediction bt (brandSkus recs b)).mayDistribution =
      (brandDistPair bt.mayTarget bt.w1Target
        (((brandSkus recs b).map SkuGroup.tonnage).sum) (brandSkus recs b)).1 := rfl
  rw [hmd]
  unfold brandDistPair
  rw [foldl_distStep_eq_append bt.mayTarget bt.w1Target
    (((brandSkus recs b).map SkuGroup.tonnage).sum) (brandSkus recs b) [] [] huniq
    (by intro g _; simp [assocKeys]) (by intro g _; simp [assocKeys]) hthr]
  simp only [List.nil_append, List.map_map]
  have hfun : ((fun e : String × SkuPred => e.2.tonnage)
        ∘ mayEntry bt.mayTarget (((brandSkus recs b).map SkuGroup.tonnage).sum))
      = fun g : SkuGroup =>
          (bt.mayTarget / ((brandSkus recs b).map SkuGroup.tonnage).sum) * g.tonnage := by
    funext g
    show bt.mayTarget * (g.tonnage / ((brandSkus recs b).map SkuGroup.tonnage).sum)
        = (bt.mayTarget / ((brandSkus recs b).map SkuGroup.tonnage).sum) * g.tonnage
    ring
  rw [hfun, List.sum_map_mul_left]
  exact div_mul_cancel₀ bt.mayTarget (ne_of_gt htot)

/-- C4 witness: conservation at the concrete E2E table (sum = 160 + 40 = 200). -/
theorem C4_conservation_witness :
    (e2ePred.mayDistribution.map (fun e => e.2.tonnage)).sum = e2eBT.mayTarget := by
  have hA : ("A1" : String) ≠ "A2" := by decide
  have hp : predictBrand e2eRecs "SCG-PI" e2eBT = some e2ePred := by
    norm_num [predictBrand, brandSkus, groupRecords, addRecord, e2eRecs, mkPrediction,
      brandDistPair, distStep, dictInsert, e2eBT, e2ePred, hA]
  have hbs : brandSkus e2eRecs "SCG-PI" =
      [⟨"SCG-PI", "A1", "Pipe 1in", 80⟩, ⟨"SCG-PI", "A2", "Pipe 2in", 20⟩] := by
    simp [brandSkus, groupRecords, addRecord, e2eRecs, hA]
  have htotal : brandSkuTotal e2eRecs "SCG-PI" = 100 := by
    norm_num [brandSkuTotal, hbs]
  refine C4_conservation e2eRecs "SCG-PI" e2eBT e2ePred (by decide) hp
    (by rw [hbs]; decide) ?_
  rw [hbs, htotal]
  intro g hg
  simp only [List.mem_cons, List.not_mem_nil, or_false] at hg
  rcases hg with rfl | rfl <;> norm_num

/-- C7: threshold truncation — a SKU code appears in a brand's May (resp. W1)
distribution iff some grouped row of that brand with that code has
historical share at least 0.001; in particular a SKU whose share is
strictly below 0.1% is absent from both distributions (while still present
among the brand's grouped SkuShare rows). -/
theorem C7_threshold (recs : List HistRecord) (b : String) (bt : BrandTarget)
    (p : Prediction) (hp : predictBrand recs b bt = some p) (code : String) :
    ((assocLookup p.mayDistribution code).isSome = true ↔
      ∃ g ∈ brandSkus recs b, g.skuCode = code ∧
        1 / 1000 ≤ g.tonnage / brandSkuTotal recs b)
    ∧ ((assocLookup p.w1Distribution code).isSome = true ↔
      ∃ g ∈ brandSkus recs b, g.skuCode = code ∧
        1 / 1000 ≤ g.tonnage / brandSkuTotal recs b) := by
  obtain ⟨-, rfl⟩ := predictBrand_some recs b bt p hp
  have hm := foldl_distStep_mem_keys bt.mayTarget bt.w1Target (brandSkuTotal recs b)
    code (brandSkus recs b) [] []
  constructor
  · rw [assocLookup_isSome_iff]
    have h1 := hm.1
    simp only [assocKeys, List.map_nil, List.not_mem_nil, false_or] at h1
    exact h1
  · rw [assocLookup_isSome_iff]
    have h2 := hm.2
    simp only [assocKeys, List.map_nil, List.not_mem_nil, false_or] at h2
    exact h2

/-- C7 witness: in `thrRecs`, SKU `Y` (share 0.05%) is present in the grouped
rows but absent from the May distribution, while SKU `X` is present. -/
theorem C7_threshold_witness :
    (assocLookup thrPred.mayDistribution "Y").isSome = false
    ∧ (assocLookup thrPred.mayDistribution "X").isSome = true := by
  have hXY : ("X" : String) ≠ "Y" := by decide
  have hbs : brandSkus thrRecs "B" = [⟨"B", "X", "x", 1999⟩, ⟨"B", "Y", "y", 1⟩] := by
    simp [brandSkus, groupRecords, addRecord, thrRecs, hXY]
  have htotal : brandSkuTotal thrRecs "B" = 2000 := by
    norm_num [brandSkuTotal, hbs]
  have hp : predictBrand thrRecs "B" thrBT = some thrPred := by
    norm_num [predictBrand, brandSkus, groupRecords, addRecord, thrRecs, mkPrediction,
      brandDistPair, distStep, dictInsert, thrBT, thrPred, hXY]
  have h := C7_threshold thrRecs "B" thrBT thrPred hp
  constructor
  · cases hs : (assocLookup thrPred.mayDistribution "Y").isSome with
    | false => rfl
    | true =>
        exfalso
        rcases (h "Y").1.mp hs with ⟨g, hg, hcode, hth⟩
        rw [hbs] at hg
        rw [htotal] at hth
        rcases List.mem_cons.mp hg with rfl | hg'
        · exact absurd hcode (by decide)
        · rcases List.mem_cons.mp hg' with rfl | hg''
          · norm_num at hth
          · simp at hg''
  · refine (h "X").1.mpr ⟨⟨"B", "X", "x", 1999⟩, ?_, rfl, ?_⟩
    · rw [hbs]
      exact List.mem_cons_self _ _
    · rw [htotal]
      norm_num

/-- C8: zero-historical handling — a brand reached from the target file whose
historical record set is empty aggregates to a `BrandTarget` with
`historicalTonnage = 0` and exactly the accumulated targets, produces no
entry in the Prediction map, and every other brand's prediction entry is
exactly its own per-brand computation (the total pipeline functions never
raise). -/
theorem C8_zero_historical (cats : List CatEntry) (recs : List HistRecord) (b : String)
    (bt : BrandTarget)
    (hno : recs.filter (fun r => r.brand == b) = [])
    (hbt : assocLookup (mapCategoriesToBrands cats recs) b = some bt) :
    bt.historicalTonnage = 0
    ∧ bt.mayTarget = maySumFor cats b
    ∧ bt.w1Target = w1SumFor cats b
    ∧ assocLookup (predictSkuDistribution (mapCategoriesToBrands cats recs) recs) b = none
    ∧ ∀ b' bt', b' ≠ b →
        assocLookup (mapCategoriesToBrands cats recs) b' = some bt' →
        assocLookup (predictSkuDistribution (mapCategoriesToBrands cats recs) recs) b'
          = predictBrand recs b' bt' := by
  have h0 : brandTotal recs b = 0 := by
    unfold brandTotal
    rw [hno]
    simp
  have hchar := mapCats_lookup cats recs b
  rw [hbt] at hchar
  by_cases hemp : (cats.filter (hitsBrand b)).isEmpty
  · rw [if_pos hemp] at hchar
    cases hchar
  · rw [if_neg hemp] at hchar
    injection hchar with hbtEq
    have hhist : bt.historicalTonnage = 0 := by
      rw [hbtEq]
      simp [accumBT, initBrand, h0]
    have hmay : bt.mayTarget = maySumFor cats b := by
      rw [hbtEq]
      simp [accumBT, initBrand, maySumFor]
    have hw1 : bt.w1Target = w1SumFor cats b := by
      rw [hbtEq]
      simp [accumBT, initBrand, w1SumFor]
    have hbs : brandSkus recs b = [] := brandSkus_nil_of_no_records recs b hno
    have hpb : predictBrand recs b bt = none := by
      simp [predictBrand, hbs]
    have hlook := predictSkuDistribution_lookup (mapCategoriesToBrands cats recs) recs
      b bt (mapCats_keys_nodup cats recs) hbt
    refine ⟨hhist, hmay, hw1, ?_, ?_⟩
    · rw [hlook, hpb]
    · intro b' bt' _ hbt'
      exact predictSkuDistribution_lookup (mapCategoriesToBrands cats recs) recs
        b' bt' (mapCats_keys_nodup cats recs) hbt'

/-- C8 witness: target category `"MFG Zork"` (brand `MFG-ZORK`) has no
historical records — its aggregate has `historicalTonnage = 0` and no
prediction entry, and `SCG-PI` still gets its own computation. -/
theorem C8_zero_historical_witness :
    (⟨10, 5, ["MFG Zork"], 0⟩ : BrandTarget).historicalTonnage = 0
    ∧ assocLookup (predictSkuDistribution (mapCategoriesToBrands c8Cats e2eRecs) e2eRecs)
        "MFG-ZORK" = none := by
  have hcl1 : classifyCategory "MFG SCG Pipe" = some "SCG-PI" := by decide
  have hcl2 : classifyCategory "MFG Zork" = some "MFG-ZORK" := by decide
  have hfb : fallbackCode "MFG Zork" = "MFG-ZORK" := by decide
  have hne : ("SCG-PI" : String) ≠ "MFG-ZORK" := by decide
  have hbeq : (("SCG-PI" : String) == "MFG-ZORK") = false := by decide
  have hbt : assocLookup (mapCategoriesToBrands c8Cats e2eRecs) "MFG-ZORK"
      = some ⟨10, 5, ["MFG Zork"], 0⟩ := by
    norm_num [mapCategoriesToBrands, aggStep, c8Cats, e2eRecs, initBrand, brandTotal,
      assocLookup, dictInsert, hcl1, hcl2, hfb, hne, hbeq]
  have h := C8_zero_historical c8Cats e2eRecs "MFG-ZORK" ⟨10, 5, ["MFG Zork"], 0⟩
    (by decide) hbt
  exact ⟨h.1, h.2.2.2.1⟩

/-- C10: the per-brand distribution dicts are keyed by SKU code alone — with
the same code under two different item names, both groups pass the
threshold yet write the same key, so only the last-processed group's
tonnage/percentage survives, and the distribution's predicted tonnage sum
falls strictly short of the (positive) brand target. -/
theorem C10_duplicate_codes (b c n1 n2 cat0 : String) (t1 t2 mayT w1T : ℚ)
    (hn : n1 ≠ n2) (ht1 : 0 < t1) (ht2 : 0 < t2) (hm : 0 < mayT)
    (hs1 : 1 / 1000 ≤ t1 / (t1 + t2)) (hs2 : 1 / 1000 ≤ t2 / (t1 + t2)) :
    brandSkus [⟨b, c, n1, t1⟩, ⟨b, c, n2, t2⟩] b =
      [⟨b, c, n1, t1⟩, ⟨b, c, n2, t2⟩]
    ∧ ∃ p, predictBrand [⟨b, c, n1, t1⟩, ⟨b, c, n2, t2⟩] b ⟨mayT, w1T, [cat0], t1 + t2⟩
          = some p
        ∧ p.mayDistribution = [(c, ⟨mayT * (t2 / (t1 + t2)), t2 / (t1 + t2), n2, t2⟩)]
        ∧ (p.mayDistribution.map (fun e => e.2.tonnage)).sum < mayT := by
  have hkey : ¬(b = b ∧ c = c ∧ n1 = n2) := by simp [hn]
  have hgroup : groupRecords [(⟨b, c, n1, t1⟩ : HistRecord), ⟨b, c, n2, t2⟩]
      = [⟨b, c, n1, t1⟩, ⟨b, c, n2, t2⟩] := by
    simp [groupRecords, addRecord, hn]
  have hbsk : brandSkus [(⟨b, c, n1, t1⟩ : HistRecord), ⟨b, c, n2, t2⟩] b
      = [(⟨b, c, n1, t1⟩ : SkuGroup), ⟨b, c, n2, t2⟩] := by
    simp [brandSkus, hgroup]
  have hsum : (([(⟨b, c, n1, t1⟩ : SkuGroup), ⟨b, c, n2, t2⟩].map SkuGroup.tonnage).sum)
      = t1 + t2 := by
    simp
  have hmd : (mkPrediction ⟨mayT, w1T, [cat0], t1 + t2⟩
        [(⟨b, c, n1, t1⟩ : SkuGroup), ⟨b, c, n2, t2⟩]).mayDistribution
      = [(c, ⟨mayT * (t2 / (t1 + t2)), t2 / (t1 + t2), n2, t2⟩)] := by
    show (brandDistPair mayT w1T
        (([(⟨b, c, n1, t1⟩ : SkuGroup), ⟨b, c, n2, t2⟩].map SkuGroup.tonnage).sum)
        [⟨b, c, n1, t1⟩, ⟨b, c, n2, t2⟩]).1 = _
    rw [hsum]
    unfold brandDistPair
    simp only [List.foldl_cons, List.foldl_nil]
    rw [distStep_pass mayT w1T (t1 + t2) ([], []) ⟨b, c, n1, t1⟩ hs1]
    rw [distStep_pass mayT w1T (t1 + t2) _ ⟨b, c, n2, t2⟩ hs2]
    simp [dictInsert]
  refine ⟨hbsk, mkPrediction ⟨mayT, w1T, [cat0], t1 + t2⟩
    [(⟨b, c, n1, t1⟩ : SkuGroup), ⟨b, c, n2, t2⟩], ?_, hmd, ?_⟩
  · unfold predictBrand
    rw [hbsk]
    simp
  · rw [hmd]
    have hfrac : t2 / (t1 + t2) < 1 := by
      rw [div_lt_one (by linarith)]
      linarith
    have hlt : mayT * (t2 / (t1 + t2)) < mayT := by
      calc mayT * (t2 / (t1 + t2)) < mayT * 1 := mul_lt_mul_of_pos_left hfrac hm
        _ = mayT := mul_one _
    simpa using hlt

/-- C10 witness: brand `B`, code `C` under names `a` and `b` (60 and 40 tons):
only the second group survives in the May distribution and its sum
`100 * 0.4 = 40` falls short of the target 100. -/
theorem C10_duplicate_codes_witness :
    brandSkus [⟨"B", "C", "a", 60⟩, ⟨"B", "C", "b", 40⟩] "B" =
      [⟨"B", "C", "a", 60⟩, ⟨"B", "C", "b", 40⟩]
    ∧ ∃ p, predictBrand [⟨"B", "C", "a", 60⟩, ⟨"B", "C", "b", 40⟩] "B"
          ⟨100, 10, ["k"], 60 + 40⟩ = some p
        ∧ p.mayDistribution = [("C", ⟨100 * (40 / (60 + 40)), 40 / (60 + 40), "b", 40⟩)]
        ∧ (p.mayDistribution.map (fun e => e.2.tonnage)).sum < 100 :=
  C10_duplicate_codes "B" "C" "a" "b" "k" 60 40 100 10 (by decide) (by norm_num)
    (by norm_num) (by norm_num) (by norm_num) (by norm_num)

end ProdPlan
